import Mathlib

/-!
# RSCP SDK core — shallow embedding and verification

This file embeds the core of the RSCP (Road Safety Certification Protocol)
SDK: the two check-digit engines (ISO 7064 MOD 11,10 and the Damm
algorithm), the certificate-number / verification-code codec, and the
privacy gate (protocol enforcement), translated from
`packages/core/src/check-digits/index.ts`,
`packages/core/src/identifiers/index.ts`,
`packages/core/src/protocol/index.ts` and
`packages/core/src/types/index.ts`.

Modelling conventions:
* JS strings are modelled as Lean `String` / `List Char`; all inputs the
  claims quantify over are ASCII, so `toUpperCase` / `toLowerCase` are
  modelled as the ASCII case maps.
* JS `throw` in a pure function is modelled as `Option`/`Except` `none` /
  `.error`.
* JS `Record<string, unknown>` values are modelled by the `JValue`
  inductive together with association lists keyed by strings.
* `Date` values are modelled by their parsed calendar components; only
  their relative order is ever observed by the code, so the embedding
  maps a parsed date to an order-faithful numeric encoding (UTC assumed).
-/

namespace RSCP

/-! ## ASCII character helpers (JS case conversion) -/

def UPPER_CHARS : List Char := "ABCDEFGHIJKLMNOPQRSTUVWXYZ".data

def LOWER_CHARS : List Char := "abcdefghijklmnopqrstuvwxyz".data

def DIGIT_CHARS : List Char := "0123456789".data

/-- Models JS `String.prototype.toUpperCase` on one ASCII character. -/
def upperChar (c : Char) : Char :=
  if 'a' ≤ c ∧ c ≤ 'z' then Char.ofNat (c.toNat - 32) else c

/-- Models JS `String.prototype.toLowerCase` on one ASCII character. -/
def lowerChar (c : Char) : Char :=
  if 'A' ≤ c ∧ c ≤ 'Z' then Char.ofNat (c.toNat + 32) else c

def upperStr (s : String) : String := String.mk (s.data.map upperChar)

def lowerStr (s : String) : String := String.mk (s.data.map lowerChar)

/-- Character of a decimal digit value, as produced by JS number
rendering for a single digit. -/
def digitChar (n : Nat) : Char := DIGIT_CHARS.getD n '0'

def digitVal (c : Char) : Nat := c.toNat - 48

/-- Structural worker for `natDigits`; the fuel argument only bounds
the recursion depth and never runs out when it starts at `n + 1`. -/
def natDigitsGo : Nat → Nat → List Char
  | 0, n => [digitChar n]
  | fuel + 1, n =>
    if n < 10 then [digitChar n]
    else natDigitsGo fuel (n / 10) ++ [digitChar (n % 10)]

/-- Decimal digit characters of a natural number, most significant
first.  Models JS `n.toString()` and template interpolation for
non-negative integers. -/
def natDigits (n : Nat) : List Char := natDigitsGo (n + 1) n

def natRepr (n : Nat) : String := String.mk (natDigits n)

/-- Value of a string of decimal digit characters.  Models JS
`parseInt(s, 10)` on all-digit strings. -/
def digitsToNat (cs : List Char) : Nat :=
  cs.foldl (fun acc c => acc * 10 + digitVal c) 0

/-- Models JS `s.padStart(6, '0')`. -/
def padStart6 (cs : List Char) : List Char :=
  List.replicate (6 - cs.length) '0' ++ cs

/-- Models JS `String.prototype.indexOf` restricted to single
characters: index of the first occurrence, `none` when absent. -/
def idxOf : List Char → Char → Option Nat
  | [], _ => none
  | a :: as, c => if a = c then some 0 else (idxOf as c).map (· + 1)

/-- ASCII fragment of the JS `\s` whitespace class (also used for
`trim`); the claims only involve ASCII input. -/
def isJsSpace (c : Char) : Bool :=
  c = ' ' || c = '\t' || c = '\n' || c = '\r' || c.toNat = 11 || c.toNat = 12

/-! ## ISO 7064 MOD 11,10 (`check-digits/index.ts`) -/

def ISO7064_ALPHABET : List Char := "0123456789ABCDEFGHIJKLMNOPQRSTUVWXYZ".data

/-- One step of the MOD 11,10 recurrence:
`remainder = ((remainder + value) % 10 || 10) * 2 % 11`. -/
def iso7064Step (r v : Nat) : Nat :=
  (if (r + v) % 10 = 0 then 10 else (r + v) % 10) * 2 % 11

/-- The character loop of `calculateISO7064Check`; `none` models the
`throw` on a character outside the alphabet. -/
def iso7064Remainder : Nat → List Char → Option Nat
  | r, [] => some r
  | r, c :: cs =>
    match idxOf ISO7064_ALPHABET c with
    | none => none
    | some v => iso7064Remainder (iso7064Step r v) cs

/-- `calculateISO7064Check` from `check-digits/index.ts`; the returned
single-character string is modelled as a `Char`. -/
def calculateISO7064Check (input : String) : Option Char :=
  (iso7064Remainder 10 (upperStr input).data).map fun r =>
    if (11 - r) % 10 = 10 then 'X' else digitChar ((11 - r) % 10)

/-- `verifyISO7064` from `check-digits/index.ts`. -/
def verifyISO7064 (input : String) (checkDigit : Char) : Bool :=
  match calculateISO7064Check input with
  | some c => c = upperChar checkDigit
  | none => false

/-- The MOD 11,10 value of a character: its index in the 36-character
alphabet (0 for characters outside it; only used under an in-alphabet
hypothesis). -/
def iso7064Value (c : Char) : Nat := (idxOf ISO7064_ALPHABET c).getD 0

/-! ## Damm algorithm (`check-digits/index.ts`) -/

def DAMM_TABLE : List (List Nat) := [
  [0, 3, 1, 7, 5, 9, 8, 6, 4, 2],
  [7, 0, 9, 2, 1, 5, 4, 8, 6, 3],
  [4, 2, 0, 6, 8, 7, 1, 3, 5, 9],
  [1, 7, 5, 0, 9, 8, 3, 4, 2, 6],
  [6, 1, 2, 3, 0, 4, 5, 9, 7, 8],
  [3, 6, 7, 4, 2, 0, 9, 5, 8, 1],
  [5, 8, 6, 9, 7, 2, 0, 1, 3, 4],
  [8, 9, 4, 5, 3, 6, 2, 0, 1, 7],
  [9, 4, 3, 8, 6, 1, 7, 2, 0, 5],
  [2, 5, 8, 1, 4, 3, 6, 7, 9, 0]]

def VERIFICATION_CODE_ALPHABET : List Char := "ABCDEFGHJKMNPQRSTUVWXYZ23456789".data

/-- `charToDigit` from `check-digits/index.ts`: alphabet index folded
mod 10; `none` models the `throw` on a character outside the alphabet. -/
def charToDigit (c : Char) : Option Nat :=
  (idxOf VERIFICATION_CODE_ALPHABET (upperChar c)).map (· % 10)

/-- `DAMM_TABLE[interim]?.[digit]`; `none` models an out-of-range
lookup (`!row` / `undefined` entry in the source). -/
def dammStep (interim digit : Nat) : Option Nat :=
  (DAMM_TABLE.get? interim).bind fun row => row.get? digit

/-- The character loop shared by `calculateDammCheck` and
`validateDammFull`. -/
def dammRun : Nat → List Char → Option Nat
  | interim, [] => some interim
  | interim, c :: cs =>
    match charToDigit c with
    | none => none
    | some d =>
      match dammStep interim d with
      | none => none
      | some next => dammRun next cs

/-- The final loop of `calculateDammCheck`: the first digit `d < 10`
with `DAMM_TABLE[interim][d] === 0`. -/
def dammCheckDigitIndex (interim : Nat) : Option Nat :=
  (List.range 10).find? fun d => dammStep interim d == some 0

/-- `calculateDammCheck` from `check-digits/index.ts` (single-character
result string modelled as a one-character `String`). -/
def calculateDammCheck (input : String) : Option String :=
  (dammRun 0 (upperStr input).data).map fun interim =>
    match dammCheckDigitIndex interim with
    | some d => String.mk [VERIFICATION_CODE_ALPHABET.getD d '2']
    | none => String.mk [VERIFICATION_CODE_ALPHABET.getD 0 'A']

/-- `verifyDamm` from `check-digits/index.ts`. -/
def verifyDamm (input : String) (checkDigit : String) : Bool :=
  match calculateDammCheck input with
  | some c => c = upperStr checkDigit
  | none => false

/-- `validateDammFull` from `check-digits/index.ts`. -/
def validateDammFull (fullString : String) : Bool :=
  if fullString.data.length < 2 then false
  else
    match dammRun 0 (upperStr fullString).data with
    | some 0 => true
    | _ => false

/-- `cleanCode` from `check-digits/index.ts`:
`code.replace(/[-\s]/g, '').toUpperCase()`. -/
def cleanCode (code : String) : String :=
  String.mk ((code.data.filter fun c => !(c = '-' || isJsSpace c)).map upperChar)

/-! ## Identifier codec (`identifiers/index.ts`) -/

inductive CertificationLevel where
  | bronze
  | silver
  | gold
deriving DecidableEq, Repr

/-- `LEVEL_CODES` from `identifiers/index.ts`. -/
def LEVEL_CODES : CertificationLevel → Char
  | .bronze => 'B'
  | .silver => 'S'
  | .gold => 'G'

/-- `CODE_TO_LEVEL` from `identifiers/index.ts`. -/
def CODE_TO_LEVEL (c : Char) : Option CertificationLevel :=
  if c = 'B' then some .bronze
  else if c = 'S' then some .silver
  else if c = 'G' then some .gold
  else none

structure GenerateCertificateNumberOptions where
  year : Nat
  level : CertificationLevel
  country : String
  issuerCode : String
  serial : Nat
deriving DecidableEq, Repr

def isUpperAlpha (c : Char) : Bool := UPPER_CHARS.contains c

def isDigitCh (c : Char) : Bool := DIGIT_CHARS.contains c

def isUpperAlnum (c : Char) : Bool := isUpperAlpha c || isDigitCh c

/-- `generateCertificateNumber` from `identifiers/index.ts`.  The `year`
and `serial` options are JS numbers whose `Number.isInteger` range
checks restrict them to the modelled `Nat` ranges; the validation
`throw`s are modelled as `none`. -/
def generateCertificateNumber (o : GenerateCertificateNumberOptions) : Option String :=
  if ¬ (2020 ≤ o.year ∧ o.year ≤ 2100) then none
  else
    let levelCode := LEVEL_CODES o.level
    let upperCountry := upperStr o.country
    if ¬ (upperCountry.data.length = 2 ∧ upperCountry.data.all isUpperAlpha) then none
    else
      let upperIssuer := upperStr o.issuerCode
      if ¬ (upperIssuer.data.length = 3 ∧ upperIssuer.data.all isUpperAlpha) then none
      else if ¬ (1 ≤ o.serial ∧ o.serial ≤ 999999) then none
      else
        let paddedSerial := padStart6 (natDigits o.serial)
        let base := String.mk ("RS".data ++ natDigits o.year ++ [levelCode] ++
          upperCountry.data ++ upperIssuer.data ++ paddedSerial)
        (calculateISO7064Check base).map fun checkDigit =>
          String.mk ("RS".data ++ ['-'] ++ natDigits o.year ++ ['-', levelCode, '-'] ++
            upperCountry.data ++ ['-'] ++ upperIssuer.data ++ ['-'] ++
            paddedSerial ++ ['-', checkDigit])

structure CertificateNumberParts where
  year : Nat
  level : CertificationLevel
  levelCode : Char
  country : String
  issuerCode : String
  serial : Nat
  checkDigit : Char
deriving DecidableEq, Repr

/-- One literal character of the regex pattern. -/
def expectChar (c : Char) : List Char → Option (List Char)
  | [] => none
  | x :: xs => if x = c then some xs else none

/-- A fixed-width character-class group of the regex pattern: exactly
`n` characters satisfying `p`. -/
def takeN (n : Nat) (p : Char → Bool) (cs : List Char) : Option (List Char × List Char) :=
  if (cs.take n).length = n ∧ (cs.take n).all p then some (cs.take n, cs.drop n)
  else none

/-- `parseCertificateNumber` from `identifiers/index.ts`: the anchored
fixed-width regex `^RS-(\d{4})-([BSG])-([A-Z]{2})-([A-Z]{3})-(\d{6})-([A-Z0-9])$`
applied to the uppercased input (case-insensitivity of the `/i` flag is
realised by the prior `toUpperCase`), decomposed group by group. -/
def parseCertificateNumber (s : String) : Option CertificateNumberParts :=
  match expectChar 'R' (upperStr s).data with
  | none => none
  | some r1 =>
  match expectChar 'S' r1 with
  | none => none
  | some r2 =>
  match expectChar '-' r2 with
  | none => none
  | some r3 =>
  match takeN 4 isDigitCh r3 with
  | none => none
  | some (yearDigits, r4) =>
  match expectChar '-' r4 with
  | none => none
  | some r5 =>
  match takeN 1 (fun c => c = 'B' || c = 'S' || c = 'G') r5 with
  | none => none
  | some (lc, r6) =>
  match expectChar '-' r6 with
  | none => none
  | some r7 =>
  match takeN 2 isUpperAlpha r7 with
  | none => none
  | some (country, r8) =>
  match expectChar '-' r8 with
  | none => none
  | some r9 =>
  match takeN 3 isUpperAlpha r9 with
  | none => none
  | some (issuer, r10) =>
  match expectChar '-' r10 with
  | none => none
  | some r11 =>
  match takeN 6 isDigitCh r11 with
  | none => none
  | some (serialDigits, r12) =>
  match expectChar '-' r12 with
  | none => none
  | some r13 =>
  match takeN 1 isUpperAlnum r13 with
  | none => none
  | some (ck, r14) =>
  if r14 = [] then
    match CODE_TO_LEVEL (lc.headD 'B') with
    | none => none
    | some level =>
      some { year := digitsToNat yearDigits, level := level, levelCode := lc.headD 'B',
             country := String.mk country, issuerCode := String.mk issuer,
             serial := digitsToNat serialDigits, checkDigit := ck.headD '0' }
  else none

/-- `validateCertificateNumber` from `identifiers/index.ts`. -/
def validateCertificateNumber (certificateNumber : String) : Bool :=
  match parseCertificateNumber certificateNumber with
  | none => false
  | some parts =>
    let paddedSerial := padStart6 (natDigits parts.serial)
    let base := String.mk ("RS".data ++ natDigits parts.year ++ [parts.levelCode] ++
      parts.country.data ++ parts.issuerCode.data ++ paddedSerial)
    verifyISO7064 base parts.checkDigit

/-- `validateVerificationCode` from `identifiers/index.ts`. -/
def validateVerificationCode (code : String) : Bool :=
  let clean := cleanCode code
  if clean.data.length ≠ 8 then false
  else validateDammFull clean

/-! ## Privacy gate (`protocol/index.ts`, `types/index.ts`) -/

/-- A JS value as far as the protocol-enforcement code can observe it. -/
inductive JValue where
  | str (s : String)
  | num (n : Int)
  | jbool (b : Bool)
  | null
  | undefined
  | obj (fields : List (String × JValue))

/-- `ALLOWED_PUBLIC_FIELDS` from `types/index.ts`. -/
def ALLOWED_PUBLIC_FIELDS : List String :=
  ["givenName", "familyName", "level", "validFrom", "validUntil"]

/-- `FORBIDDEN_FIELDS` from `types/index.ts`. -/
def FORBIDDEN_FIELDS : List String := [
  "email", "phone", "mobile", "address", "dateOfBirth", "dob", "birthDate",
  "gender", "sex", "age",
  "aadhaarNumber", "aadhaar", "panNumber", "pan", "passport", "passportNumber",
  "drivingLicense", "licenseNumber", "socialSecurityNumber", "ssn",
  "nationalId", "voterId",
  "testScore", "score", "hazardScore", "practicalScore", "theoryScore",
  "grade", "marks",
  "bankAccount", "accountNumber", "ifsc", "upi", "creditCard", "salary",
  "income",
  "internalRiderId", "riderId", "internalId", "externalId", "employeeId",
  "staffId",
  "location", "gps", "coordinates", "homeAddress", "workAddress",
  "photo", "photograph", "fingerprint", "biometric", "faceId"]

/-- `isForbiddenField` from `protocol/index.ts`: case-insensitive exact
match against the denylist. -/
def isForbiddenField (field : String) : Bool :=
  FORBIDDEN_FIELDS.any fun f => lowerStr f = lowerStr field

/-- `isAllowedField` from `protocol/index.ts`:
`ALLOWED_PUBLIC_FIELDS.includes(field)` (note: no case folding). -/
def isAllowedField (field : String) : Bool :=
  ALLOWED_PUBLIC_FIELDS.contains field

/-- JS property access `data[k]` on the modelled record (absent keys
read as `undefined`). -/
def getField (data : List (String × JValue)) (k : String) : JValue :=
  match data.lookup k with
  | some v => v
  | none => .undefined

/-- `detectForbiddenFields` from `protocol/index.ts`: top-level keys,
plus one level into the `publicAttributes` and `attributes` containers
when they hold (truthy) objects. -/
def detectForbiddenFields (data : List (String × JValue)) : List String :=
  let top := (data.map Prod.fst).filter fun k => isForbiddenField k
  let pa :=
    match data.lookup "publicAttributes" with
    | some (.obj fields) =>
      ((fields.map Prod.fst).filter fun k => isForbiddenField k).map
        fun k => "publicAttributes." ++ k
    | _ => []
  let nested :=
    match data.lookup "attributes" with
    | some (.obj fields) =>
      ((fields.map Prod.fst).filter fun k => isForbiddenField k).map
        fun k => "attributes." ++ k
    | _ => []
  top ++ pa ++ nested

/-- Control characters blocked by `validateName`
(`/[\u0000-\u001F\u007F-\u009F]/`). -/
def isControlChar (c : Char) : Bool :=
  c.toNat ≤ 0x1F || (0x7F ≤ c.toNat && c.toNat ≤ 0x9F)

/-- The `/<[^>]*>/` test of `validateName`: some later closing angle
bracket follows an opening one. -/
def containsHtmlTag : List Char → Bool
  | [] => false
  | c :: rest => if c = '<' then rest.contains '>' else containsHtmlTag rest

/-- `validateName` from `protocol/index.ts`; returns the name string on
success (the source is a boolean type guard followed by a cast). -/
def validateName (v : JValue) : Option String :=
  match v with
  | .str name =>
    if name.data.length < 1 ∨ 100 < name.data.length then none
    else if name.data.any isControlChar then none
    else if containsHtmlTag name.data then none
    else if name.data.all isJsSpace then none
    else some name
  | _ => none

/-- `validateLevel` from `protocol/index.ts`. -/
def validateLevel (v : JValue) : Option CertificationLevel :=
  match v with
  | .str s =>
    if s = "bronze" then some .bronze
    else if s = "silver" then some .silver
    else if s = "gold" then some .gold
    else none
  | _ => none

def levelToString : CertificationLevel → String
  | .bronze => "bronze"
  | .silver => "silver"
  | .gold => "gold"

structure ISODateTime where
  year : Nat
  month : Nat
  day : Nat
  hour : Nat
  minute : Nat
  second : Nat
  ms : Nat
deriving DecidableEq, Repr

/-- The optional time suffix `T\d{2}:\d{2}:\d{2}(\.\d{3})?Z?` of the
ISO 8601 pattern of `validateISODate` (the part after the `T`). -/
def parseISOTime (y month day : Nat) (r6 : List Char) : Option ISODateTime :=
  match takeN 2 isDigitCh r6 with
  | none => none
  | some (hh, r7) =>
  match expectChar ':' r7 with
  | none => none
  | some r8 =>
  match takeN 2 isDigitCh r8 with
  | none => none
  | some (mi, r9) =>
  match expectChar ':' r9 with
  | none => none
  | some r10 =>
  match takeN 2 isDigitCh r10 with
  | none => none
  | some (ss, r11) =>
  let msr : Option (Nat × List Char) :=
    match r11 with
    | '.' :: r =>
      match takeN 3 isDigitCh r with
      | none => none
      | some (m, rest) => some (digitsToNat m, rest)
    | r => some (0, r)
  match msr with
  | none => none
  | some (msv, r12) =>
  match r12 with
  | [] => some ⟨y, month, day, digitsToNat hh, digitsToNat mi, digitsToNat ss, msv⟩
  | ['Z'] => some ⟨y, month, day, digitsToNat hh, digitsToNat mi, digitsToNat ss, msv⟩
  | _ => none

/-- The ISO 8601 pattern of `validateISODate`:
`^\d{4}-(0[1-9]|1[0-2])-(0[1-9]|[12]\d|3[01])(T\d{2}:\d{2}:\d{2}(\.\d{3})?Z?)?$`,
decomposed group by group (the month and day alternations are exactly
the ranges 1–12 and 1–31). -/
def parseISODate (cs : List Char) : Option ISODateTime :=
  match takeN 4 isDigitCh cs with
  | none => none
  | some (y, r1) =>
  match expectChar '-' r1 with
  | none => none
  | some r2 =>
  match takeN 2 isDigitCh r2 with
  | none => none
  | some (mo, r3) =>
  match expectChar '-' r3 with
  | none => none
  | some r4 =>
  match takeN 2 isDigitCh r4 with
  | none => none
  | some (d, r5) =>
  let month := digitsToNat mo
  let day := digitsToNat d
  if ¬ (1 ≤ month ∧ month ≤ 12) then none
  else if ¬ (1 ≤ day ∧ day ≤ 31) then none
  else
    match r5 with
    | [] => some ⟨digitsToNat y, month, day, 0, 0, 0, 0⟩
    | 'T' :: r6 => parseISOTime (digitsToNat y) month day r6
    | _ => none

def isLeapYear (y : Nat) : Bool :=
  (y % 4 = 0 && y % 100 ≠ 0) || y % 400 = 0

def daysInMonth (y m : Nat) : Nat :=
  if m = 2 then (if isLeapYear y then 29 else 28)
  else if m = 4 ∨ m = 6 ∨ m = 9 ∨ m = 11 then 30
  else 31

/-- The `new Date(date)` validity check of `validateISODate`: a
pattern-matching ISO string parses to a valid `Date` exactly when its
calendar day exists and its time-of-day fields are in range. -/
def jsDateValid (dt : ISODateTime) : Bool :=
  dt.day ≤ daysInMonth dt.year dt.month && dt.hour ≤ 23 &&
    dt.minute ≤ 59 && dt.second ≤ 59

/-- `validateISODate` from `protocol/index.ts`; returns the string and
its parsed components on success. -/
def validateISODate (v : JValue) : Option (String × ISODateTime) :=
  match v with
  | .str s =>
    match parseISODate s.data with
    | some dt => if jsDateValid dt then some (s, dt) else none
    | none => none
  | _ => none

/-- Order-faithful numeric encoding of the `Date` value of a parsed ISO
string (UTC assumed): the code only ever compares two such values. -/
def dateOrdinalMs (dt : ISODateTime) : Nat :=
  ((dt.year * 12 + (dt.month - 1)) * 31 + (dt.day - 1)) * 86400000 +
    dt.hour * 3600000 + dt.minute * 60000 + dt.second * 1000 + dt.ms

/-- `RSCPPublicAttributes` from `types/index.ts`: the closed 5-field
shape returned by the privacy gate. -/
structure RSCPPublicAttributes where
  givenName : String
  familyName : String
  level : CertificationLevel
  validFrom : String
  validUntil : String
deriving DecidableEq, Repr

/-- The three error classes of `protocol/index.ts`
(`ProtocolViolationError` / `MissingAttributeError` /
`AttributeValidationError`), carrying the offending field. -/
inductive EnforceError where
  | protocolViolation (field : String)
  | missingAttribute (field : String)
  | invalidAttribute (field : String)
deriving DecidableEq, Repr

/-- JS `x === undefined || x === null`. -/
def isMissing (v : JValue) : Bool :=
  match v with
  | .undefined => true
  | .null => true
  | _ => false

/-- `enforcePublicAttributesOnly` from `protocol/index.ts`: forbidden
fields first, then presence, then per-field shape, then the date range,
then the freshly constructed 5-field object. -/
def enforcePublicAttributesOnly (data : List (String × JValue)) :
    Except EnforceError RSCPPublicAttributes :=
  match detectForbiddenFields data with
  | f :: _ => .error (.protocolViolation f)
  | [] =>
    let givenName := getField data "givenName"
    let familyName := getField data "familyName"
    let level := getField data "level"
    let validFrom := getField data "validFrom"
    let validUntil := getField data "validUntil"
    if isMissing givenName then .error (.missingAttribute "givenName")
    else if isMissing familyName then .error (.missingAttribute "familyName")
    else if isMissing level then .error (.missingAttribute "level")
    else if isMissing validFrom then .error (.missingAttribute "validFrom")
    else if isMissing validUntil then .error (.missingAttribute "validUntil")
    else
      match validateName givenName, validateName familyName, validateLevel level,
        validateISODate validFrom, validateISODate validUntil with
      | some gn, some fn, some lv, some fromD, some untilD =>
        if dateOrdinalMs untilD.2 ≤ dateOrdinalMs fromD.2 then
          .error (.invalidAttribute "validUntil")
        else
          .ok { givenName := gn, familyName := fn, level := lv,
                validFrom := fromD.1, validUntil := untilD.1 }
      | none, _, _, _, _ => .error (.invalidAttribute "givenName")
      | _, none, _, _, _ => .error (.invalidAttribute "familyName")
      | _, _, none, _, _ => .error (.invalidAttribute "level")
      | _, _, _, none, _ => .error (.invalidAttribute "validFrom")
      | _, _, _, _, none => .error (.invalidAttribute "validUntil")

/-- The canonical record form of an `RSCPPublicAttributes` value, as it
would be passed back into the gate (values as JS strings). -/
def attrsToRecord (a : RSCPPublicAttributes) : List (String × JValue) :=
  [("givenName", .str a.givenName), ("familyName", .str a.familyName),
   ("level", .str (levelToString a.level)), ("validFrom", .str a.validFrom),
   ("validUntil", .str a.validUntil)]

/-! ## Theorems -/

set_option maxRecDepth 8000

/-- C10: `validateDammFull` (hence `validateVerificationCode`) and
`verifyDamm` can disagree: the 8-character code `AAAAAAAM` over the
restricted alphabet passes full validation (the alphabet index of `M`
is 10, congruent to the expected check digit 0 modulo 10), while
`verifyDamm` on the 7-character base and the last character returns
`false` because `calculateDammCheck` only ever returns one of the first
10 alphabet characters (here `A`). -/
theorem damm_validate_verify_disagreement :
    "AAAAAAAM".data.length = 8 ∧
    (∀ c ∈ "AAAAAAAM".data, c ∈ VERIFICATION_CODE_ALPHABET) ∧
    validateVerificationCode "AAAAAAAM" = true ∧
    validateDammFull "AAAAAAAM" = true ∧
    verifyDamm "AAAAAAA" "M" = false ∧
    calculateDammCheck "AAAAAAA" = some "A" ∧
    idxOf VERIFICATION_CODE_ALPHABET 'M' = some 10 := by
  decide

/-- C6: the spec scenario (and the code-base documentation, which gives
the same example three times) states that
`generateCertificateNumber({year: 2026, level: gold, country: IN,
issuerCode: SWG, serial: 1})` returns `RS-2026-G-IN-SWG-000001-7`, but
the implemented MOD 11,10 recurrence yields check character `8` for the
base `RS2026GINSWG000001`, so the code returns
`RS-2026-G-IN-SWG-000001-8` and rejects the documented `-7` form. -/
theorem generate_certificate_number_check_digit_bug :
    generateCertificateNumber ⟨2026, .gold, "IN", "SWG", 1⟩ =
      some "RS-2026-G-IN-SWG-000001-8" ∧
    calculateISO7064Check "RS2026GINSWG000001" = some '8' ∧
    validateCertificateNumber "RS-2026-G-IN-SWG-000001-7" = false ∧
    validateCertificateNumber "RS-2026-G-IN-SWG-000001-8" = true := by
  refine ⟨?_, ?_, ?_, ?_⟩ <;> decide

/-- C4 (counterexample): the claim fails on the code.  `AAAAAAAA` is an
accepted 8-character verification code; replacing its first character
with the different alphabet character `M` yields `MAAAAAAA`, which is
also accepted (both characters fold to Damm digit 0), and swapping the
unequal adjacent characters of the accepted code `AMAAAAAA` yields
`MAAAAAAA`, also accepted. -/
theorem damm_same_digit_substitution_counterexample :
    'M' ∈ VERIFICATION_CODE_ALPHABET ∧ 'A' ∈ VERIFICATION_CODE_ALPHABET ∧
    'M' ≠ 'A' ∧
    validateVerificationCode "AAAAAAAA" = true ∧
    validateVerificationCode "MAAAAAAA" = true ∧
    validateVerificationCode "AMAAAAAA" = true := by
  decide

/-- C5 (counterexample): the claim fails on the code.  Replacing the
single character `0` by the different alphabet character `A` leaves the
MOD 11,10 check character unchanged (both values are congruent mod 10),
so `verifyISO7064` accepts the mutated string with the original check
character; and transposing the unequal adjacent digits of `56` also
leaves the check character unchanged. -/
theorem iso7064_mod10_collision_counterexample :
    '0' ∈ ISO7064_ALPHABET ∧ 'A' ∈ ISO7064_ALPHABET ∧ ('0' : Char) ≠ 'A' ∧
    calculateISO7064Check "0" = some '2' ∧
    calculateISO7064Check "A" = some '2' ∧
    verifyISO7064 "A" '2' = true ∧
    ('5' : Char) ≠ '6' ∧
    calculateISO7064Check "56" = some '0' ∧
    calculateISO7064Check "65" = some '0' := by
  decide

/-- C3 (counterexample): the claim fails on the code.  `LEVEL` and
`level` differ only in letter case, yet `isAllowedField` accepts only
the exact spelling `level`: the allowlist check is case-sensitive. -/
theorem allowlist_case_sensitivity_counterexample :
    lowerStr "LEVEL" = lowerStr "level" ∧
    isAllowedField "LEVEL" = false ∧
    isAllowedField "level" = true := by
  decide

/-- C3 (amended): forbidden-field classification is case-insensitive
exact name matching (two field names with the same lowercasing classify
identically), while allowed-field classification is case-sensitive
exact membership in the 5-name allowlist. -/
theorem field_classification_case_rules :
    (∀ f g : String, lowerStr f = lowerStr g →
      isForbiddenField f = isForbiddenField g) ∧
    (∀ f : String, isAllowedField f = true ↔ f ∈ ALLOWED_PUBLIC_FIELDS) := by
  constructor
  · intro f g h
    simp only [isForbiddenField, h]
  · intro f
    simp [isAllowedField]

theorem field_classification_case_rules_witness :
    isForbiddenField "Email" = isForbiddenField "EMAIL" ∧
    (isAllowedField "givenName" = true ↔ "givenName" ∈ ALLOWED_PUBLIC_FIELDS) :=
  ⟨field_classification_case_rules.1 "Email" "EMAIL" (by decide),
   field_classification_case_rules.2 "givenName"⟩

/-- C2: whenever the forbidden-field scan reports at least one
violation, `enforcePublicAttributesOnly` fails with a protocol
violation naming the first reported field, before any presence or
format validation is consulted. -/
theorem protocol_violation_precedes_other_validation :
    ∀ (data : List (String × JValue)) (f : String) (rest : List String),
      detectForbiddenFields data = f :: rest →
      enforcePublicAttributesOnly data = .error (.protocolViolation f) := by
  intro data f rest h
  unfold enforcePublicAttributesOnly
  rw [h]

theorem protocol_violation_precedes_other_validation_witness :
    detectForbiddenFields
      [("givenName", .str "R"), ("familyName", .str "K"),
       ("level", .str "gold"), ("validFrom", .str "2026-01-01"),
       ("validUntil", .str "2026-01-01"), ("email", .str "x@y.com")] = ["email"] ∧
    enforcePublicAttributesOnly
      [("givenName", .str "R"), ("familyName", .str "K"),
       ("level", .str "gold"), ("validFrom", .str "2026-01-01"),
       ("validUntil", .str "2026-01-01"), ("email", .str "x@y.com")] =
      .error (.protocolViolation "email") :=
  ⟨by decide,
   protocol_violation_precedes_other_validation _ "email" [] (by decide)⟩

/-- C8: the check value `(11 - remainder) % 10` is rendered as its
decimal digit, or as the literal character `X` when it equals 10;
consequently `RS-2026-G-IN-SWG-000001-X` fails certificate validation
(the check character of that base is not `X`). -/
theorem iso7064_check_rendering :
    (∀ (s : String) (r : Nat),
      iso7064Remainder 10 (upperStr s).data = some r →
      calculateISO7064Check s =
        some (if (11 - r) % 10 = 10 then 'X' else digitChar ((11 - r) % 10))) ∧
    validateCertificateNumber "RS-2026-G-IN-SWG-000001-X" = false := by
  constructor
  · intro s r h
    unfold calculateISO7064Check
    rw [h]
    rfl
  · decide

theorem iso7064_check_rendering_witness :
    calculateISO7064Check "" = some '1' ∧
    validateCertificateNumber "RS-2026-G-IN-SWG-000001-X" = false :=
  ⟨iso7064_check_rendering.1 "" 10 rfl, iso7064_check_rendering.2⟩

theorem validateName_some {v : JValue} {s : String} (h : validateName v = some s) :
    v = .str s := by
  cases v <;> try exact Option.noConfusion h
  case str name =>
    simp only [validateName] at h
    split at h
    · exact Option.noConfusion h
    · split at h
      · exact Option.noConfusion h
      · split at h
        · exact Option.noConfusion h
        · split at h
          · exact Option.noConfusion h
          · simp only [Option.some.injEq] at h
            rw [h]

theorem validateLevel_some {v : JValue} {lv : CertificationLevel}
    (h : validateLevel v = some lv) : v = .str (levelToString lv) := by
  cases v <;> try exact Option.noConfusion h
  case str s =>
    simp only [validateLevel] at h
    split at h
    next hs =>
      simp only [Option.some.injEq] at h
      subst h
      exact congrArg JValue.str hs
    next =>
      split at h
      next hs =>
        simp only [Option.some.injEq] at h
        subst h
        exact congrArg JValue.str hs
      next =>
        split at h
        next hs =>
          simp only [Option.some.injEq] at h
          subst h
          exact congrArg JValue.str hs
        next => exact Option.noConfusion h

theorem validateISODate_some {v : JValue} {s : String} {dt : ISODateTime}
    (h : validateISODate v = some (s, dt)) : v = .str s := by
  cases v <;> try exact Option.noConfusion h
  case str t =>
    simp only [validateISODate] at h
    split at h
    · split at h
      · simp only [Option.some.injEq, Prod.mk.injEq] at h
        rw [h.1]
      · exact Option.noConfusion h
    · exact Option.noConfusion h

/-- Inversion of a successful run of the privacy gate: the input passed
the forbidden-field scan and every field validator, and the result
fields carry exactly the validated values. -/
theorem enforce_ok_inversion {data : List (String × JValue)} {r : RSCPPublicAttributes}
    (h : enforcePublicAttributesOnly data = .ok r) :
    detectForbiddenFields data = [] ∧
    validateName (getField data "givenName") = some r.givenName ∧
    validateName (getField data "familyName") = some r.familyName ∧
    validateLevel (getField data "level") = some r.level ∧
    ∃ dtF dtU,
      validateISODate (getField data "validFrom") = some (r.validFrom, dtF) ∧
      validateISODate (getField data "validUntil") = some (r.validUntil, dtU) ∧
      ¬ dateOrdinalMs dtU ≤ dateOrdinalMs dtF := by
  simp only [enforcePublicAttributesOnly] at h
  split at h
  · exact Except.noConfusion h
  next hdet =>
    split at h <;> try exact Except.noConfusion h
    split at h <;> try exact Except.noConfusion h
    split at h <;> try exact Except.noConfusion h
    split at h <;> try exact Except.noConfusion h
    split at h <;> try exact Except.noConfusion h
    split at h <;> try exact Except.noConfusion h
    rename_i gn fn lv fromD untilD hgn hfn hlv hfrom huntil
    split at h
    · exact Except.noConfusion h
    next hrange =>
      simp only [Except.ok.injEq] at h
      subst h
      exact ⟨hdet, hgn, hfn, hlv, fromD.2, untilD.2, hfrom, huntil, hrange⟩

/-- C1: when the privacy gate succeeds, the returned object is the
closed 5-field `RSCPPublicAttributes` shape — its field list is exactly
the allowlist — and each of the five fields carries exactly the
corresponding input value, whatever other (non-forbidden) fields the
input carried. -/
theorem enforce_output_exactly_five_fields :
    ∀ (data : List (String × JValue)) (r : RSCPPublicAttributes),
      enforcePublicAttributesOnly data = .ok r →
      getField data "givenName" = .str r.givenName ∧
      getField data "familyName" = .str r.familyName ∧
      getField data "level" = .str (levelToString r.level) ∧
      getField data "validFrom" = .str r.validFrom ∧
      getField data "validUntil" = .str r.validUntil ∧
      (attrsToRecord r).map Prod.fst = ALLOWED_PUBLIC_FIELDS := by
  intro data r h
  obtain ⟨-, h1, h2, h3, dtF, dtU, h4, h5, -⟩ := enforce_ok_inversion h
  exact ⟨validateName_some h1, validateName_some h2, validateLevel_some h3,
    validateISODate_some h4, validateISODate_some h5, rfl⟩

theorem enforce_output_exactly_five_fields_witness :
    getField
      [("givenName", .str "R"), ("familyName", .str "K"),
       ("level", .str "gold"), ("validFrom", .str "2026-01-01"),
       ("validUntil", .str "2027-01-01"), ("note", .str "extra")] "givenName" =
      .str "R" ∧
    getField
      [("givenName", .str "R"), ("familyName", .str "K"),
       ("level", .str "gold"), ("validFrom", .str "2026-01-01"),
       ("validUntil", .str "2027-01-01"), ("note", .str "extra")] "familyName" =
      .str "K" ∧
    getField
      [("givenName", .str "R"), ("familyName", .str "K"),
       ("level", .str "gold"), ("validFrom", .str "2026-01-01"),
       ("validUntil", .str "2027-01-01"), ("note", .str "extra")] "level" =
      .str (levelToString .gold) ∧
    getField
      [("givenName", .str "R"), ("familyName", .str "K"),
       ("level", .str "gold"), ("validFrom", .str "2026-01-01"),
       ("validUntil", .str "2027-01-01"), ("note", .str "extra")] "validFrom" =
      .str "2026-01-01" ∧
    getField
      [("givenName", .str "R"), ("familyName", .str "K"),
       ("level", .str "gold"), ("validFrom", .str "2026-01-01"),
       ("validUntil", .str "2027-01-01"), ("note", .str "extra")] "validUntil" =
      .str "2027-01-01" ∧
    (attrsToRecord ⟨"R", "K", .gold, "2026-01-01", "2027-01-01"⟩).map Prod.fst =
      ALLOWED_PUBLIC_FIELDS :=
  enforce_output_exactly_five_fields _
    ⟨"R", "K", .gold, "2026-01-01", "2027-01-01"⟩ rfl

/-- C9: the privacy gate is idempotent — feeding a successful result
(as the record it denotes) back through the gate succeeds and returns
the same structure. -/
theorem enforce_idempotent :
    ∀ (data : List (String × JValue)) (r : RSCPPublicAttributes),
      enforcePublicAttributesOnly data = .ok r →
      enforcePublicAttributesOnly (attrsToRecord r) = .ok r := by
  intro data r h
  obtain ⟨-, h1, h2, h3, dtF, dtU, h4, h5, hlt⟩ := enforce_ok_inversion h
  have e1 : validateName (JValue.str r.givenName) = some r.givenName :=
    validateName_some h1 ▸ h1
  have e2 : validateName (JValue.str r.familyName) = some r.familyName :=
    validateName_some h2 ▸ h2
  have e3 : validateLevel (JValue.str (levelToString r.level)) = some r.level :=
    validateLevel_some h3 ▸ h3
  have e4 : validateISODate (JValue.str r.validFrom) = some (r.validFrom, dtF) :=
    validateISODate_some h4 ▸ h4
  have e5 : validateISODate (JValue.str r.validUntil) = some (r.validUntil, dtU) :=
    validateISODate_some h5 ▸ h5
  have hdet : detectForbiddenFields (attrsToRecord r) = [] := rfl
  have g1 : getField (attrsToRecord r) "givenName" = .str r.givenName := rfl
  have g2 : getField (attrsToRecord r) "familyName" = .str r.familyName := rfl
  have g3 : getField (attrsToRecord r) "level" = .str (levelToString r.level) := rfl
  have g4 : getField (attrsToRecord r) "validFrom" = .str r.validFrom := rfl
  have g5 : getField (attrsToRecord r) "validUntil" = .str r.validUntil := rfl
  simp only [enforcePublicAttributesOnly, hdet, g1, g2, g3, g4, g5, isMissing,
    e1, e2, e3, e4, e5, hlt, if_false, Bool.false_eq_true, if_neg, not_false_iff]

theorem map_id_of_mem {l : List Char} {f : Char → Char} (h : ∀ c ∈ l, f c = c) :
    l.map f = l := by
  induction l with
  | nil => rfl
  | cons c cs ih =>
    simp only [List.map_cons]
    rw [h c (List.mem_cons_self c cs), ih fun x hx => h x (List.mem_cons_of_mem c hx)]

theorem filter_eq_self_of_mem {l : List Char} {p : Char → Bool}
    (h : ∀ c ∈ l, p c = true) : l.filter p = l := by
  induction l with
  | nil => rfl
  | cons c cs ih =>
    rw [List.filter_cons_of_pos (h c (List.mem_cons_self c cs)),
      ih fun x hx => h x (List.mem_cons_of_mem c hx)]

theorem verif_alph_not_sep :
    ∀ c ∈ VERIFICATION_CODE_ALPHABET, (!(c = '-' || isJsSpace c)) = true := by
  decide

theorem verif_alph_upper_fixed :
    ∀ c ∈ VERIFICATION_CODE_ALPHABET, upperChar c = c := by
  decide

theorem cleanCode_alphabet {cs : List Char}
    (h : ∀ c ∈ cs, c ∈ VERIFICATION_CODE_ALPHABET) :
    cleanCode (String.mk cs) = String.mk cs := by
  unfold cleanCode
  rw [show (String.mk cs).data = cs from rfl,
    filter_eq_self_of_mem fun c hc => verif_alph_not_sep c (h c hc),
    map_id_of_mem fun c hc => verif_alph_upper_fixed c (h c hc)]

theorem upperStr_mk_verif_alphabet {cs : List Char}
    (h : ∀ c ∈ cs, c ∈ VERIFICATION_CODE_ALPHABET) :
    (upperStr (String.mk cs)).data = cs := by
  show (String.mk cs).data.map upperChar = cs
  exact map_id_of_mem fun c hc => verif_alph_upper_fixed c (h c hc)

/-- Full-code validation over alphabet characters is exactly: length 8
and the Damm run over all characters ends in state 0. -/
theorem validateVerificationCode_iff {cs : List Char}
    (h : ∀ c ∈ cs, c ∈ VERIFICATION_CODE_ALPHABET) :
    validateVerificationCode (String.mk cs) = true ↔
      cs.length = 8 ∧ dammRun 0 cs = some 0 := by
  simp only [validateVerificationCode, validateDammFull, cleanCode_alphabet h,
    upperStr_mk_verif_alphabet h, show (String.mk cs).data = cs from rfl]
  by_cases h8 : cs.length = 8
  · rcases hrun : dammRun 0 cs with _ | t
    · simp [h8, hrun]
    · rcases t with _ | k
      · simp [h8, hrun]
      · simp [h8, hrun]
  · simp [h8]

theorem dammStep_lt {i d : Nat} (hi : i < 10) (hd : d < 10) :
    ∃ x, dammStep i d = some x ∧ x < 10 := by
  have h : ∀ i : Fin 10, ∀ d : Fin 10, ∃ x : Fin 10,
      dammStep i.val d.val = some x.val := by decide
  obtain ⟨x, hx⟩ := h ⟨i, hi⟩ ⟨d, hd⟩
  exact ⟨x.val, hx, x.isLt⟩

theorem dammStep_injD {i d e : Nat} (hi : i < 10) (hd : d < 10) (he : e < 10)
    (hde : d ≠ e) : dammStep i d ≠ dammStep i e := by
  have h : ∀ i : Fin 10, ∀ d : Fin 10, ∀ e : Fin 10,
      d = e ∨ dammStep i.val d.val ≠ dammStep i.val e.val := by decide
  rcases h ⟨i, hi⟩ ⟨d, hd⟩ ⟨e, he⟩ with heq | hne
  · exact absurd (congrArg Fin.val heq) hde
  · exact hne

theorem dammStep_injI {i j d : Nat} (hi : i < 10) (hj : j < 10) (hij : i ≠ j)
    (hd : d < 10) : dammStep i d ≠ dammStep j d := by
  have h : ∀ i : Fin 10, ∀ j : Fin 10, ∀ d : Fin 10,
      i = j ∨ dammStep i.val d.val ≠ dammStep j.val d.val := by decide
  rcases h ⟨i, hi⟩ ⟨j, hj⟩ ⟨d, hd⟩ with heq | hne
  · exact absurd (congrArg Fin.val heq) hij
  · exact hne

/-- Total anti-symmetry of the Damm quasigroup table: transposing two
different digits always changes the resulting state. -/
theorem dammStep_antisym {i d e : Nat} (hi : i < 10) (hd : d < 10) (he : e < 10)
    (hde : d ≠ e) :
    ((dammStep i d).bind fun x => dammStep x e) ≠
      ((dammStep i e).bind fun x => dammStep x d) := by
  have h : ∀ i : Fin 10, ∀ d : Fin 10, ∀ e : Fin 10,
      d = e ∨ ((dammStep i.val d.val).bind fun x => dammStep x e.val) ≠
        ((dammStep i.val e.val).bind fun x => dammStep x d.val) := by decide
  rcases h ⟨i, hi⟩ ⟨d, hd⟩ ⟨e, he⟩ with heq | hne
  · exact absurd (congrArg Fin.val heq) hde
  · exact hne

theorem charToDigit_lt {c : Char} (hc : c ∈ VERIFICATION_CODE_ALPHABET) :
    ∃ d, charToDigit c = some d ∧ d < 10 := by
  have h : ∀ c ∈ VERIFICATION_CODE_ALPHABET, ∃ d : Fin 10,
      charToDigit c = some d.val := by decide
  obtain ⟨d, hd⟩ := h c hc
  exact ⟨d.val, hd, d.isLt⟩

theorem dammRun_append (xs : List Char) :
    ∀ (i : Nat) (ys : List Char),
      dammRun i (xs ++ ys) = (dammRun i xs).bind fun t => dammRun t ys := by
  induction xs with
  | nil => intro i ys; rfl
  | cons c cs ih =>
    intro i ys
    rcases hd : charToDigit c with _ | d
    · simp only [List.cons_append, dammRun, hd, Option.none_bind]
    · rcases hx : dammStep i d with _ | x
      · simp only [List.cons_append, dammRun, hd, hx, Option.none_bind]
      · simp only [List.cons_append, dammRun, hd, hx, Option.some_bind]
        exact ih x ys

theorem dammRun_total :
    ∀ (cs : List Char), (∀ c ∈ cs, c ∈ VERIFICATION_CODE_ALPHABET) →
    ∀ i : Nat, i < 10 → ∃ t, dammRun i cs = some t ∧ t < 10 := by
  intro cs
  induction cs with
  | nil => intro _ i hi; exact ⟨i, rfl, hi⟩
  | cons c cs ih =>
    intro hcs i hi
    obtain ⟨d, hd, hdlt⟩ := charToDigit_lt (hcs c (List.mem_cons_self c cs))
    obtain ⟨x, hx, hxlt⟩ := dammStep_lt hi hdlt
    obtain ⟨t, ht, htlt⟩ := ih (fun a ha => hcs a (List.mem_cons_of_mem c ha)) x hxlt
    refine ⟨t, ?_, htlt⟩
    simp only [dammRun, hd, hx]
    exact ht

theorem dammRun_inj :
    ∀ (cs : List Char), (∀ c ∈ cs, c ∈ VERIFICATION_CODE_ALPHABET) →
    ∀ i j : Nat, i < 10 → j < 10 → i ≠ j →
    ∃ t u, dammRun i cs = some t ∧ dammRun j cs = some u ∧
      t < 10 ∧ u < 10 ∧ t ≠ u := by
  intro cs
  induction cs with
  | nil => intro _ i j hi hj hij; exact ⟨i, j, rfl, rfl, hi, hj, hij⟩
  | cons c cs ih =>
    intro hcs i j hi hj hij
    obtain ⟨d, hd, hdlt⟩ := charToDigit_lt (hcs c (List.mem_cons_self c cs))
    obtain ⟨x, hx, hxlt⟩ := dammStep_lt hi hdlt
    obtain ⟨y, hy, hylt⟩ := dammStep_lt hj hdlt
    have hxy : x ≠ y := fun he =>
      dammStep_injI hi hj hij hdlt (by rw [hx, hy, he])
    obtain ⟨t, u, ht, hu, htlt, hult, htu⟩ :=
      ih (fun a ha => hcs a (List.mem_cons_of_mem c ha)) x y hxlt hylt hxy
    refine ⟨t, u, ?_, ?_, htlt, hult, htu⟩
    · simp only [dammRun, hd, hx]; exact ht
    · simp only [dammRun, hd, hy]; exact hu

/-- C4 (amended): the Damm check over the restricted alphabet detects
every single-character substitution by a character with a different
folded digit value, and every adjacent transposition of two characters
with different folded digit values; substitutions or transpositions
within the same `charToDigit` class are the errors the counterexample
exhibits as undetectable. -/
theorem damm_digit_level_error_detection :
    (∀ (pre suf : List Char) (c c2 : Char),
      (∀ x ∈ pre ++ c :: suf, x ∈ VERIFICATION_CODE_ALPHABET) →
      c2 ∈ VERIFICATION_CODE_ALPHABET →
      charToDigit c ≠ charToDigit c2 →
      validateVerificationCode (String.mk (pre ++ c :: suf)) = true →
      validateVerificationCode (String.mk (pre ++ c2 :: suf)) = false) ∧
    (∀ (pre suf : List Char) (c c2 : Char),
      (∀ x ∈ pre ++ c :: c2 :: suf, x ∈ VERIFICATION_CODE_ALPHABET) →
      charToDigit c ≠ charToDigit c2 →
      validateVerificationCode (String.mk (pre ++ c :: c2 :: suf)) = true →
      validateVerificationCode (String.mk (pre ++ c2 :: c :: suf)) = false) := by
  constructor
  · intro pre suf c c2 hmem hc2 hdig hval
    have hc : c ∈ VERIFICATION_CODE_ALPHABET :=
      hmem c (List.mem_append_right pre (List.mem_cons_self c suf))
    have hpre : ∀ x ∈ pre, x ∈ VERIFICATION_CODE_ALPHABET :=
      fun x hx => hmem x (List.mem_append_left _ hx)
    have hsuf : ∀ x ∈ suf, x ∈ VERIFICATION_CODE_ALPHABET :=
      fun x hx => hmem x (List.mem_append_right pre (List.mem_cons_of_mem c hx))
    have hmem2 : ∀ x ∈ pre ++ c2 :: suf, x ∈ VERIFICATION_CODE_ALPHABET := by
      intro x hx
      rcases List.mem_append.mp hx with hx | hx
      · exact hpre x hx
      · rcases List.mem_cons.mp hx with hx | hx
        · exact hx ▸ hc2
        · exact hsuf x hx
    obtain ⟨hlen, hrun⟩ := (validateVerificationCode_iff hmem).mp hval
    cases hb : validateVerificationCode (String.mk (pre ++ c2 :: suf)) with
    | false => rfl
    | true =>
      exfalso
      obtain ⟨-, hrun2⟩ := (validateVerificationCode_iff hmem2).mp hb
      obtain ⟨t, ht, htlt⟩ := dammRun_total pre hpre 0 (by omega)
      obtain ⟨dc, hdc, hdclt⟩ := charToDigit_lt hc
      obtain ⟨dc2, hdc2, hdc2lt⟩ := charToDigit_lt hc2
      have hdcne : dc ≠ dc2 := fun he => hdig (by rw [hdc, hdc2, he])
      obtain ⟨x, hx, hxlt⟩ := dammStep_lt htlt hdclt
      obtain ⟨y, hy, hylt⟩ := dammStep_lt htlt hdc2lt
      have hxy : x ≠ y := fun he =>
        dammStep_injD htlt hdclt hdc2lt hdcne (by rw [hx, hy, he])
      obtain ⟨u, w, hu, hw, -, -, huw⟩ := dammRun_inj suf hsuf x y hxlt hylt hxy
      have e1 : dammRun 0 (pre ++ c :: suf) = some u := by
        rw [dammRun_append, ht]
        show dammRun t (c :: suf) = some u
        simp only [dammRun, hdc, hx]
        exact hu
      have e2 : dammRun 0 (pre ++ c2 :: suf) = some w := by
        rw [dammRun_append, ht]
        show dammRun t (c2 :: suf) = some w
        simp only [dammRun, hdc2, hy]
        exact hw
      rw [e1] at hrun
      rw [e2] at hrun2
      exact huw ((Option.some.injEq _ _ ▸ hrun).trans
        (Option.some.injEq _ _ ▸ hrun2).symm)
  · intro pre suf c c2 hmem hdig hval
    have hc : c ∈ VERIFICATION_CODE_ALPHABET :=
      hmem c (List.mem_append_right pre (List.mem_cons_self c _))
    have hc2 : c2 ∈ VERIFICATION_CODE_ALPHABET :=
      hmem c2 (List.mem_append_right pre
        (List.mem_cons_of_mem c (List.mem_cons_self c2 suf)))
    have hpre : ∀ x ∈ pre, x ∈ VERIFICATION_CODE_ALPHABET :=
      fun x hx => hmem x (List.mem_append_left _ hx)
    have hsuf : ∀ x ∈ suf, x ∈ VERIFICATION_CODE_ALPHABET :=
      fun x hx => hmem x (List.mem_append_right pre
        (List.mem_cons_of_mem c (List.mem_cons_of_mem c2 hx)))
    have hmem2 : ∀ x ∈ pre ++ c2 :: c :: suf, x ∈ VERIFICATION_CODE_ALPHABET := by
      intro x hx
      rcases List.mem_append.mp hx with hx | hx
      · exact hpre x hx
      · rcases List.mem_cons.mp hx with hx | hx
        · exact hx ▸ hc2
        · rcases List.mem_cons.mp hx with hx | hx
          · exact hx ▸ hc
          · exact hsuf x hx
    obtain ⟨hlen, hrun⟩ := (validateVerificationCode_iff hmem).mp hval
    cases hb : validateVerificationCode (String.mk (pre ++ c2 :: c :: suf)) with
    | false => rfl
    | true =>
      exfalso
      obtain ⟨-, hrun2⟩ := (validateVerificationCode_iff hmem2).mp hb
      obtain ⟨t, ht, htlt⟩ := dammRun_total pre hpre 0 (by omega)
      obtain ⟨dc, hdc, hdclt⟩ := charToDigit_lt hc
      obtain ⟨dc2, hdc2, hdc2lt⟩ := charToDigit_lt hc2
      have hdcne : dc ≠ dc2 := fun he => hdig (by rw [hdc, hdc2, he])
      obtain ⟨x1, hx1, hx1lt⟩ := dammStep_lt htlt hdclt
      obtain ⟨x2, hx2, hx2lt⟩ := dammStep_lt hx1lt hdc2lt
      obtain ⟨y1, hy1, hy1lt⟩ := dammStep_lt htlt hdc2lt
      obtain ⟨y2, hy2, hy2lt⟩ := dammStep_lt hy1lt hdclt
      have hbind : ((dammStep t dc).bind fun x => dammStep x dc2) ≠
          ((dammStep t dc2).bind fun x => dammStep x dc) :=
        dammStep_antisym htlt hdclt hdc2lt hdcne
      have hx2y2 : x2 ≠ y2 := by
        intro he
        apply hbind
        rw [hx1, hy1]
        show dammStep x1 dc2 = dammStep y1 dc
        rw [hx2, hy2, he]
      obtain ⟨u, w, hu, hw, -, -, huw⟩ :=
        dammRun_inj suf hsuf x2 y2 hx2lt hy2lt hx2y2
      have e1 : dammRun 0 (pre ++ c :: c2 :: suf) = some u := by
        rw [dammRun_append, ht]
        show dammRun t (c :: c2 :: suf) = some u
        simp only [dammRun, hdc, hdc2, hx1, hx2]
        exact hu
      have e2 : dammRun 0 (pre ++ c2 :: c :: suf) = some w := by
        rw [dammRun_append, ht]
        show dammRun t (c2 :: c :: suf) = some w
        simp only [dammRun, hdc, hdc2, hy1, hy2]
        exact hw
      rw [e1] at hrun
      rw [e2] at hrun2
      exact huw ((Option.some.injEq _ _ ▸ hrun).trans
        (Option.some.injEq _ _ ▸ hrun2).symm)

theorem damm_digit_level_error_detection_witness :
    validateVerificationCode "BAAAAAAA" = false ∧
    validateVerificationCode "BAAAAAAC" = false :=
  ⟨damm_digit_level_error_detection.1 [] "AAAAAAA".data 'A' 'B'
     (by decide) (by decide) (by decide) (by decide),
   damm_digit_level_error_detection.2 [] "AAAAAC".data 'A' 'B'
     (by decide) (by decide) (by decide)⟩

theorem idxOf_isSome_of_mem {l : List Char} {c : Char} (h : c ∈ l) :
    ∃ v, idxOf l c = some v := by
  induction l with
  | nil => exact absurd h (List.not_mem_nil c)
  | cons a as ih =>
    by_cases hac : a = c
    · exact ⟨0, by simp [idxOf, hac]⟩
    · rcases List.mem_cons.mp h with hh | hh
      · exact absurd hh.symm hac
      · obtain ⟨v, hv⟩ := ih hh
        exact ⟨v + 1, by simp [idxOf, hac, hv]⟩

theorem idxOf_eq_none_of_not_mem {l : List Char} {c : Char} (h : c ∉ l) :
    idxOf l c = none := by
  induction l with
  | nil => rfl
  | cons a as ih =>
    have hne : ¬ a = c := fun hac => h (List.mem_cons.mpr (Or.inl hac.symm))
    have has : c ∉ as := fun hm => h (List.mem_cons_of_mem a hm)
    simp [idxOf, hne, ih has]

theorem iso7064Step_mod (r v : Nat) : iso7064Step r v = iso7064Step r (v % 10) := by
  unfold iso7064Step
  have h : (r + v) % 10 = (r + v % 10) % 10 := by omega
  rw [h]

theorem iso7064Step_ok {r : Nat} (v : Nat) (h1 : 1 ≤ r) (h2 : r ≤ 10) :
    1 ≤ iso7064Step r v ∧ iso7064Step r v ≤ 10 := by
  rw [iso7064Step_mod]
  have hfin : ∀ s : Fin 10, ∀ d : Fin 10,
      1 ≤ iso7064Step (s.val + 1) d.val ∧ iso7064Step (s.val + 1) d.val ≤ 10 := by
    decide
  have h := hfin ⟨r - 1, by omega⟩ ⟨v % 10, Nat.mod_lt _ (by omega)⟩
  simpa [Nat.sub_add_cancel h1] using h

theorem iso7064Step_injV {r v w : Nat} (h1 : 1 ≤ r) (h2 : r ≤ 10)
    (hvw : v % 10 ≠ w % 10) : iso7064Step r v ≠ iso7064Step r w := by
  rw [iso7064Step_mod r v, iso7064Step_mod r w]
  have hfin : ∀ s : Fin 10, ∀ d : Fin 10, ∀ e : Fin 10,
      d = e ∨ iso7064Step (s.val + 1) d.val ≠ iso7064Step (s.val + 1) e.val := by
    decide
  have h := hfin ⟨r - 1, by omega⟩ ⟨v % 10, Nat.mod_lt _ (by omega)⟩
    ⟨w % 10, Nat.mod_lt _ (by omega)⟩
  rcases h with heq | hne
  · exact absurd (congrArg Fin.val heq) hvw
  · simpa [Nat.sub_add_cancel h1] using hne

theorem iso7064Step_injR {r r2 : Nat} (v : Nat) (h1 : 1 ≤ r) (h2 : r ≤ 10)
    (h3 : 1 ≤ r2) (h4 : r2 ≤ 10) (hrr : r ≠ r2) :
    iso7064Step r v ≠ iso7064Step r2 v := by
  rw [iso7064Step_mod r v, iso7064Step_mod r2 v]
  have hfin : ∀ s : Fin 10, ∀ s2 : Fin 10, ∀ d : Fin 10,
      s = s2 ∨ iso7064Step (s.val + 1) d.val ≠ iso7064Step (s2.val + 1) d.val := by
    decide
  have h := hfin ⟨r - 1, by omega⟩ ⟨r2 - 1, by omega⟩
    ⟨v % 10, Nat.mod_lt _ (by omega)⟩
  rcases h with heq | hne
  · have hval := congrArg Fin.val heq
    simp only at hval
    exact absurd (by omega : r = r2) hrr
  · simpa [Nat.sub_add_cancel h1, Nat.sub_add_cancel h3] using hne

theorem iso7064Remainder_append (xs : List Char) :
    ∀ (r : Nat) (ys : List Char),
      iso7064Remainder r (xs ++ ys) =
        (iso7064Remainder r xs).bind fun t => iso7064Remainder t ys := by
  induction xs with
  | nil => intro r ys; rfl
  | cons c cs ih =>
    intro r ys
    rcases hv : idxOf ISO7064_ALPHABET c with _ | v
    · simp only [List.cons_append, iso7064Remainder, hv, Option.none_bind]
    · simp only [List.cons_append, iso7064Remainder, hv, Option.some_bind]
      exact ih _ ys

theorem iso7064Remainder_total :
    ∀ (cs : List Char), (∀ c ∈ cs, c ∈ ISO7064_ALPHABET) →
    ∀ r : Nat, 1 ≤ r → r ≤ 10 →
    ∃ t, iso7064Remainder r cs = some t ∧ 1 ≤ t ∧ t ≤ 10 := by
  intro cs
  induction cs with
  | nil => intro _ r h1 h2; exact ⟨r, rfl, h1, h2⟩
  | cons c cs ih =>
    intro hcs r h1 h2
    obtain ⟨v, hv⟩ := idxOf_isSome_of_mem (hcs c (List.mem_cons_self c cs))
    obtain ⟨hs1, hs2⟩ := iso7064Step_ok v h1 h2
    obtain ⟨t, ht, ht1, ht2⟩ :=
      ih (fun a ha => hcs a (List.mem_cons_of_mem c ha)) _ hs1 hs2
    refine ⟨t, ?_, ht1, ht2⟩
    simp only [iso7064Remainder, hv]
    exact ht

theorem iso7064Remainder_inj :
    ∀ (cs : List Char), (∀ c ∈ cs, c ∈ ISO7064_ALPHABET) →
    ∀ r r2 : Nat, 1 ≤ r → r ≤ 10 → 1 ≤ r2 → r2 ≤ 10 → r ≠ r2 →
    ∃ t u, iso7064Remainder r cs = some t ∧ iso7064Remainder r2 cs = some u ∧
      1 ≤ t ∧ t ≤ 10 ∧ 1 ≤ u ∧ u ≤ 10 ∧ t ≠ u := by
  intro cs
  induction cs with
  | nil =>
    intro _ r r2 h1 h2 h3 h4 hne
    exact ⟨r, r2, rfl, rfl, h1, h2, h3, h4, hne⟩
  | cons c cs ih =>
    intro hcs r r2 h1 h2 h3 h4 hne
    obtain ⟨v, hv⟩ := idxOf_isSome_of_mem (hcs c (List.mem_cons_self c cs))
    obtain ⟨hs1, hs2⟩ := iso7064Step_ok v h1 h2
    obtain ⟨hs3, hs4⟩ := iso7064Step_ok v h3 h4
    have hstep : iso7064Step r v ≠ iso7064Step r2 v :=
      iso7064Step_injR v h1 h2 h3 h4 hne
    obtain ⟨t, u, ht, hu, p1, p2, p3, p4, ptu⟩ :=
      ih (fun a ha => hcs a (List.mem_cons_of_mem c ha)) _ _ hs1 hs2 hs3 hs4 hstep
    refine ⟨t, u, ?_, ?_, p1, p2, p3, p4, ptu⟩
    · simp only [iso7064Remainder, hv]; exact ht
    · simp only [iso7064Remainder, hv]; exact hu

theorem iso7064Remainder_none :
    ∀ (cs : List Char), (∃ x ∈ cs, x ∉ ISO7064_ALPHABET) →
    ∀ r : Nat, iso7064Remainder r cs = none := by
  intro cs
  induction cs with
  | nil =>
    intro hex _
    obtain ⟨x, hx, -⟩ := hex
    exact absurd hx (List.not_mem_nil x)
  | cons c cs ih =>
    intro hex r
    obtain ⟨x, hx, hxa⟩ := hex
    by_cases hc : c ∈ ISO7064_ALPHABET
    · obtain ⟨v, hv⟩ := idxOf_isSome_of_mem hc
      have hxs : x ∈ cs := by
        rcases List.mem_cons.mp hx with hh | hh
        · exact absurd (hh.symm ▸ hc) hxa
        · exact hh
      simp only [iso7064Remainder, hv]
      exact ih ⟨x, hxs, hxa⟩ _
    · simp only [iso7064Remainder, idxOf_eq_none_of_not_mem hc]

theorem iso7064_checkChar_inj {r r2 : Nat} (h1 : 1 ≤ r) (h2 : r ≤ 10)
    (h3 : 1 ≤ r2) (h4 : r2 ≤ 10) (hne : r ≠ r2) :
    (if (11 - r) % 10 = 10 then 'X' else digitChar ((11 - r) % 10)) ≠
      (if (11 - r2) % 10 = 10 then 'X' else digitChar ((11 - r2) % 10)) := by
  have hfin : ∀ s : Fin 10, ∀ s2 : Fin 10, s = s2 ∨
      (if (11 - (s.val + 1)) % 10 = 10 then 'X'
        else digitChar ((11 - (s.val + 1)) % 10)) ≠
      (if (11 - (s2.val + 1)) % 10 = 10 then 'X'
        else digitChar ((11 - (s2.val + 1)) % 10)) := by
    decide
  have h := hfin ⟨r - 1, by omega⟩ ⟨r2 - 1, by omega⟩
  rcases h with heq | hne2
  · have hval := congrArg Fin.val heq
    simp only at hval
    exact absurd (by omega : r = r2) hne
  · simpa [Nat.sub_add_cancel h1, Nat.sub_add_cancel h3] using hne2

theorem iso7064_checkChar_upper_fixed {r : Nat} (h1 : 1 ≤ r) (h2 : r ≤ 10) :
    upperChar (if (11 - r) % 10 = 10 then 'X' else digitChar ((11 - r) % 10)) =
      (if (11 - r) % 10 = 10 then 'X' else digitChar ((11 - r) % 10)) := by
  have hfin : ∀ s : Fin 10,
      upperChar (if (11 - (s.val + 1)) % 10 = 10 then 'X'
        else digitChar ((11 - (s.val + 1)) % 10)) =
      (if (11 - (s.val + 1)) % 10 = 10 then 'X'
        else digitChar ((11 - (s.val + 1)) % 10)) := by
    decide
  have h := hfin ⟨r - 1, by omega⟩
  simpa [Nat.sub_add_cancel h1] using h

theorem iso_alph_upper_fixed : ∀ c ∈ ISO7064_ALPHABET, upperChar c = c := by
  decide

theorem upperStr_mk_iso_alphabet {cs : List Char}
    (h : ∀ c ∈ cs, c ∈ ISO7064_ALPHABET) :
    (upperStr (String.mk cs)).data = cs := by
  show (String.mk cs).data.map upperChar = cs
  exact map_id_of_mem fun c hc => iso_alph_upper_fixed c (h c hc)

theorem calculateISO7064Check_mk {cs : List Char}
    (h : ∀ c ∈ cs, c ∈ ISO7064_ALPHABET) :
    calculateISO7064Check (String.mk cs) =
      (iso7064Remainder 10 cs).map fun r =>
        if (11 - r) % 10 = 10 then 'X' else digitChar ((11 - r) % 10) := by
  unfold calculateISO7064Check
  rw [upperStr_mk_iso_alphabet h]

/-- C5 (amended): over the 36-character alphabet, the MOD 11,10 check
detects every single-character substitution by a character whose
alphabet value differs modulo 10 (so `verifyISO7064` with the original
check character rejects the mutated string), and
`calculateISO7064Check` fails on any input containing a character
outside the alphabet.  Substitution within a value class mod 10 (the
first counterexample) and adjacent transposition (the second, already
for plain digit strings) are not detected. -/
theorem iso7064_substitution_detection_and_throws :
    (∀ (pre suf : List Char) (c c2 ck : Char),
      (∀ x ∈ pre ++ c :: suf, x ∈ ISO7064_ALPHABET) →
      c2 ∈ ISO7064_ALPHABET →
      iso7064Value c % 10 ≠ iso7064Value c2 % 10 →
      calculateISO7064Check (String.mk (pre ++ c :: suf)) = some ck →
      calculateISO7064Check (String.mk (pre ++ c2 :: suf)) ≠ some ck ∧
        verifyISO7064 (String.mk (pre ++ c2 :: suf)) ck = false) ∧
    (∀ s : String, (∃ x ∈ (upperStr s).data, x ∉ ISO7064_ALPHABET) →
      calculateISO7064Check s = none) := by
  constructor
  · intro pre suf c c2 ck hmem hc2 hdig hcalc
    have hc : c ∈ ISO7064_ALPHABET :=
      hmem c (List.mem_append_right pre (List.mem_cons_self c suf))
    have hpre : ∀ x ∈ pre, x ∈ ISO7064_ALPHABET :=
      fun x hx => hmem x (List.mem_append_left _ hx)
    have hsuf : ∀ x ∈ suf, x ∈ ISO7064_ALPHABET :=
      fun x hx => hmem x (List.mem_append_right pre (List.mem_cons_of_mem c hx))
    have hmem2 : ∀ x ∈ pre ++ c2 :: suf, x ∈ ISO7064_ALPHABET := by
      intro x hx
      rcases List.mem_append.mp hx with hx | hx
      · exact hpre x hx
      · rcases List.mem_cons.mp hx with hx | hx
        · exact hx ▸ hc2
        · exact hsuf x hx
    obtain ⟨v, hv⟩ := idxOf_isSome_of_mem hc
    obtain ⟨w, hw⟩ := idxOf_isSome_of_mem hc2
    have hvval : iso7064Value c = v := by simp [iso7064Value, hv]
    have hwval : iso7064Value c2 = w := by simp [iso7064Value, hw]
    have hvw : v % 10 ≠ w % 10 := by
      rw [hvval, hwval] at hdig
      exact hdig
    obtain ⟨t, ht, ht1, ht2⟩ :=
      iso7064Remainder_total pre hpre 10 (by omega) (by omega)
    obtain ⟨hx1, hx2⟩ := iso7064Step_ok v ht1 ht2
    obtain ⟨hy1, hy2⟩ := iso7064Step_ok w ht1 ht2
    have hxy : iso7064Step t v ≠ iso7064Step t w := iso7064Step_injV ht1 ht2 hvw
    obtain ⟨t1, t2, hrt1, hrt2, q1, q2, q3, q4, hne⟩ :=
      iso7064Remainder_inj suf hsuf _ _ hx1 hx2 hy1 hy2 hxy
    have e1 : iso7064Remainder 10 (pre ++ c :: suf) = some t1 := by
      rw [iso7064Remainder_append, ht]
      show iso7064Remainder t (c :: suf) = some t1
      simp only [iso7064Remainder, hv]
      exact hrt1
    have e2 : iso7064Remainder 10 (pre ++ c2 :: suf) = some t2 := by
      rw [iso7064Remainder_append, ht]
      show iso7064Remainder t (c2 :: suf) = some t2
      simp only [iso7064Remainder, hw]
      exact hrt2
    have hcalc1 : calculateISO7064Check (String.mk (pre ++ c :: suf)) =
        some (if (11 - t1) % 10 = 10 then 'X' else digitChar ((11 - t1) % 10)) := by
      rw [calculateISO7064Check_mk hmem, e1]
      rfl
    have hcalc2 : calculateISO7064Check (String.mk (pre ++ c2 :: suf)) =
        some (if (11 - t2) % 10 = 10 then 'X' else digitChar ((11 - t2) % 10)) := by
      rw [calculateISO7064Check_mk hmem2, e2]
      rfl
    have hckval : ck =
        (if (11 - t1) % 10 = 10 then 'X' else digitChar ((11 - t1) % 10)) := by
      have := hcalc.symm.trans hcalc1
      exact Option.some.injEq _ _ ▸ this
    have hrender : (if (11 - t2) % 10 = 10 then 'X'
        else digitChar ((11 - t2) % 10)) ≠ ck := by
      rw [hckval]
      exact iso7064_checkChar_inj q3 q4 q1 q2 (Ne.symm hne)
    constructor
    · rw [hcalc2]
      intro hcontra
      exact hrender (Option.some.injEq _ _ ▸ hcontra)
    · unfold verifyISO7064
      rw [hcalc2]
      have hupper : upperChar ck = ck := by
        rw [hckval]
        exact iso7064_checkChar_upper_fixed q1 q2
      show decide ((if (11 - t2) % 10 = 10 then 'X'
        else digitChar ((11 - t2) % 10)) = upperChar ck) = false
      rw [hupper]
      exact decide_eq_false hrender
  · intro s hex
    unfold calculateISO7064Check
    rw [iso7064Remainder_none (upperStr s).data hex 10]
    rfl

theorem iso7064_substitution_detection_and_throws_witness :
    (calculateISO7064Check "1" ≠ some '2' ∧ verifyISO7064 "1" '2' = false) ∧
    calculateISO7064Check "*" = none :=
  ⟨iso7064_substitution_detection_and_throws.1 [] [] '0' '1' '2'
     (by decide) (by decide) (by decide) (by decide),
   iso7064_substitution_detection_and_throws.2 "*"
     ⟨'*', by decide, by decide⟩⟩

theorem natDigitsGo_congr :
    ∀ (f1 : Nat), ∀ {f2 n : Nat}, n < f1 → n < f2 →
      natDigitsGo f1 n = natDigitsGo f2 n := by
  intro f1
  induction f1 with
  | zero => intro f2 n h1 _; omega
  | succ f ih =>
    intro f2 n h1 h2
    rcases f2 with _ | f2p
    · omega
    · by_cases h10 : n < 10
      · simp [natDigitsGo, h10]
      · simp only [natDigitsGo, if_neg h10]
        congr 1
        exact ih (by omega) (by omega)

/-- The recursion equation of `natDigits`, fuel-free. -/
theorem natDigits_eq (n : Nat) :
    natDigits n = if n < 10 then [digitChar n]
      else natDigits (n / 10) ++ [digitChar (n % 10)] := by
  unfold natDigits
  by_cases h10 : n < 10
  · simp [natDigitsGo, h10]
  · simp only [natDigitsGo, if_neg h10]
    congr 1
    show natDigitsGo n (n / 10) = natDigitsGo (n / 10 + 1) (n / 10)
    exact natDigitsGo_congr n (by omega) (by omega)

theorem digitChar_mem : ∀ m : Nat, m < 10 → digitChar m ∈ DIGIT_CHARS := by
  have h : ∀ m : Fin 10, digitChar m.val ∈ DIGIT_CHARS := by decide
  intro m hm
  exact h ⟨m, hm⟩

theorem digitVal_digitChar : ∀ m : Nat, m < 10 → digitVal (digitChar m) = m := by
  have h : ∀ m : Fin 10, digitVal (digitChar m.val) = m.val := by decide
  intro m hm
  exact h ⟨m, hm⟩

theorem natDigits_all_digit : ∀ n, ∀ c ∈ natDigits n, c ∈ DIGIT_CHARS := by
  intro n
  induction n using Nat.strong_induction_on with
  | _ n ih =>
    intro c hc
    rw [natDigits_eq] at hc
    by_cases h10 : n < 10
    · rw [if_pos h10] at hc
      rw [List.mem_singleton.mp hc]
      exact digitChar_mem n h10
    · rw [if_neg h10] at hc
      rcases List.mem_append.mp hc with hh | hh
      · exact ih (n / 10) (by omega) c hh
      · rw [List.mem_singleton.mp hh]
        exact digitChar_mem _ (by omega)

theorem natDigits_len_le : ∀ (k : Nat), 1 ≤ k → ∀ n, n < 10 ^ k →
    (natDigits n).length ≤ k := by
  intro k
  induction k with
  | zero => omega
  | succ k ih =>
    intro _ n hn
    rw [natDigits_eq]
    by_cases h10 : n < 10
    · simp [h10]
    · rw [if_neg h10]
      rcases Nat.eq_zero_or_pos k with hk | hk
      · subst hk
        rw [pow_one] at hn
        omega
      · have hdiv : n / 10 < 10 ^ k := by
          have hmul : n < 10 ^ k * 10 := by rw [← pow_succ]; exact hn
          omega
        have hlen := ih hk (n / 10) hdiv
        simp only [List.length_append, List.length_cons, List.length_nil]
        omega

theorem natDigits_len_eq : ∀ (k n : Nat), 10 ^ k ≤ n → n < 10 ^ (k + 1) →
    (natDigits n).length = k + 1 := by
  intro k
  induction k with
  | zero =>
    intro n h1 h2
    rw [pow_one] at h2
    rw [natDigits_eq, if_pos h2]
    rfl
  | succ k ih =>
    intro n h1 h2
    have h10 : ¬ n < 10 := by
      have hle : (10:Nat) ≤ 10 ^ (k + 1) := by
        calc (10:Nat) = 10 ^ 1 := (pow_one 10).symm
        _ ≤ 10 ^ (k + 1) := Nat.pow_le_pow_right (by omega) (by omega)
      omega
    rw [natDigits_eq, if_neg h10]
    have hd1 : 10 ^ k ≤ n / 10 := by
      have hmul : 10 ^ k * 10 ≤ n := by rw [← pow_succ]; exact h1
      omega
    have hd2 : n / 10 < 10 ^ (k + 1) := by
      have hmul : n < 10 ^ (k + 1) * 10 := by rw [← pow_succ]; exact h2
      omega
    have hlen := ih (n / 10) hd1 hd2
    simp only [List.length_append, List.length_cons, List.length_nil]
    omega

theorem digitsToNat_append_singleton (xs : List Char) (ch : Char) :
    digitsToNat (xs ++ [ch]) = digitsToNat xs * 10 + digitVal ch := by
  unfold digitsToNat
  rw [List.foldl_append]
  rfl

theorem digitsToNat_natDigits : ∀ n, digitsToNat (natDigits n) = n := by
  intro n
  induction n using Nat.strong_induction_on with
  | _ n ih =>
    rw [natDigits_eq]
    by_cases h10 : n < 10
    · rw [if_pos h10]
      show (0 : Nat) * 10 + digitVal (digitChar n) = n
      rw [digitVal_digitChar n h10]
      omega
    · rw [if_neg h10, digitsToNat_append_singleton, ih (n / 10) (by omega),
        digitVal_digitChar _ (by omega)]
      omega

theorem digitsToNat_replicate_zero : ∀ (k : Nat) (cs : List Char),
    digitsToNat (List.replicate k '0' ++ cs) = digitsToNat cs := by
  intro k
  induction k with
  | zero => intro cs; rfl
  | succ k ih =>
    intro cs
    rw [List.replicate_succ, List.cons_append]
    have hstep : digitsToNat ('0' :: (List.replicate k '0' ++ cs)) =
        digitsToNat (List.replicate k '0' ++ cs) := rfl
    rw [hstep, ih]

theorem padStart6_length {cs : List Char} (h : cs.length ≤ 6) :
    (padStart6 cs).length = 6 := by
  unfold padStart6
  rw [List.length_append, List.length_replicate]
  omega

theorem padStart6_all_digit {cs : List Char} (h : ∀ c ∈ cs, c ∈ DIGIT_CHARS) :
    ∀ c ∈ padStart6 cs, c ∈ DIGIT_CHARS := by
  intro c hc
  rcases List.mem_append.mp hc with hr | hcs
  · rw [List.eq_of_mem_replicate hr]
    decide
  · exact h c hcs

theorem digitsToNat_padStart6 (cs : List Char) :
    digitsToNat (padStart6 cs) = digitsToNat cs :=
  digitsToNat_replicate_zero _ cs

theorem contains_of_mem {l : List Char} {c : Char} (h : c ∈ l) :
    l.contains c = true := by
  induction l with
  | nil => exact absurd h (List.not_mem_nil c)
  | cons a as ih =>
    rcases List.mem_cons.mp h with hh | hh
    · simp [List.contains_cons, hh]
    · simp only [List.contains_cons]
      simp [ih hh]
      exact Or.inr hh

theorem upper_subset_iso : ∀ c ∈ UPPER_CHARS, c ∈ ISO7064_ALPHABET := by
  decide

theorem digit_subset_iso : ∀ c ∈ DIGIT_CHARS, c ∈ ISO7064_ALPHABET := by
  decide

theorem upperChar_upper_to_upper : ∀ c ∈ UPPER_CHARS, upperChar c ∈ UPPER_CHARS := by
  decide

theorem upperChar_lower_to_upper : ∀ c ∈ LOWER_CHARS, upperChar c ∈ UPPER_CHARS := by
  decide

theorem renderChar_digit {r : Nat} (h1 : 1 ≤ r) (h2 : r ≤ 10) :
    (if (11 - r) % 10 = 10 then 'X' else digitChar ((11 - r) % 10)) ∈
      DIGIT_CHARS := by
  have hfin : ∀ s : Fin 10,
      (if (11 - (s.val + 1)) % 10 = 10 then 'X'
        else digitChar ((11 - (s.val + 1)) % 10)) ∈ DIGIT_CHARS := by
    decide
  have h := hfin ⟨r - 1, by omega⟩
  simpa [Nat.sub_add_cancel h1] using h

theorem expectChar_cons (c : Char) (rest : List Char) :
    expectChar c (c :: rest) = some rest := by
  simp [expectChar]

theorem takeN_exact (n : Nat) (p : Char → Bool) (xs rest : List Char)
    (hl : xs.length = n) (hp : ∀ c ∈ xs, p c = true) :
    takeN n p (xs ++ rest) = some (xs, rest) := by
  unfold takeN
  have htake : (xs ++ rest).take n = xs := by
    rw [← hl]
    exact List.take_left xs rest
  have hdrop : (xs ++ rest).drop n = rest := by
    rw [← hl]
    exact List.drop_left xs rest
  rw [htake, hdrop, if_pos ⟨hl, List.all_eq_true.mpr hp⟩]

theorem CODE_TO_LEVEL_LEVEL_CODES :
    ∀ lv, CODE_TO_LEVEL (LEVEL_CODES lv) = some lv := by
  intro lv
  cases lv <;> rfl

theorem levelCode_class : ∀ lv,
    ((LEVEL_CODES lv = 'B' : Bool) || (LEVEL_CODES lv = 'S' : Bool) ||
      (LEVEL_CODES lv = 'G' : Bool)) = true := by
  intro lv
  cases lv <;> rfl

theorem levelCode_upper : ∀ lv, LEVEL_CODES lv ∈ UPPER_CHARS := by
  intro lv
  cases lv <;> decide

theorem rs_subset_iso : ∀ c ∈ "RS".data, c ∈ ISO7064_ALPHABET := by
  decide

theorem upper_fixed : ∀ c ∈ UPPER_CHARS, upperChar c = c := by
  decide

theorem digit_fixed : ∀ c ∈ DIGIT_CHARS, upperChar c = c := by
  decide

/-- C7: every certificate number produced by `generateCertificateNumber`
from a valid input (year 2020–2100, a known level, a two-letter
country, a three-letter issuer code, serial 1–999999) is accepted by
`validateCertificateNumber`. -/
theorem validate_generate_roundtrip :
    ∀ (o : GenerateCertificateNumberOptions),
      2020 ≤ o.year → o.year ≤ 2100 →
      o.country.data.length = 2 →
      (∀ c ∈ o.country.data, c ∈ UPPER_CHARS ∨ c ∈ LOWER_CHARS) →
      o.issuerCode.data.length = 3 →
      (∀ c ∈ o.issuerCode.data, c ∈ UPPER_CHARS ∨ c ∈ LOWER_CHARS) →
      1 ≤ o.serial → o.serial ≤ 999999 →
      ∃ s, generateCertificateNumber o = some s ∧
        validateCertificateNumber s = true := by
  intro o hy1 hy2 hclen hcletters hilen hiletters hs1 hs2
  have hCc : ∀ c ∈ (upperStr o.country).data, c ∈ UPPER_CHARS := by
    intro c hc
    obtain ⟨a, ha, hac⟩ := List.mem_map.mp hc
    rcases hcletters a ha with hl | hl
    · rw [← hac]; exact upperChar_upper_to_upper a hl
    · rw [← hac]; exact upperChar_lower_to_upper a hl
  have hIc : ∀ c ∈ (upperStr o.issuerCode).data, c ∈ UPPER_CHARS := by
    intro c hc
    obtain ⟨a, ha, hac⟩ := List.mem_map.mp hc
    rcases hiletters a ha with hl | hl
    · rw [← hac]; exact upperChar_upper_to_upper a hl
    · rw [← hac]; exact upperChar_lower_to_upper a hl
  have hClen2 : (upperStr o.country).data.length = 2 := by
    show (o.country.data.map upperChar).length = 2
    rw [List.length_map]
    exact hclen
  have hIlen3 : (upperStr o.issuerCode).data.length = 3 := by
    show (o.issuerCode.data.map upperChar).length = 3
    rw [List.length_map]
    exact hilen
  have hYdig : ∀ c ∈ natDigits o.year, c ∈ DIGIT_CHARS := natDigits_all_digit o.year
  have hYlen : (natDigits o.year).length = 4 := by
    have e3 : (10:Nat) ^ 3 = 1000 := by norm_num
    have e4 : (10:Nat) ^ 4 = 10000 := by norm_num
    exact natDigits_len_eq 3 o.year (by omega) (by omega)
  have hPdig : ∀ c ∈ padStart6 (natDigits o.serial), c ∈ DIGIT_CHARS :=
    padStart6_all_digit (natDigits_all_digit o.serial)
  have hPlen : (padStart6 (natDigits o.serial)).length = 6 := by
    have e6 : (10:Nat) ^ 6 = 1000000 := by norm_num
    exact padStart6_length (natDigits_len_le 6 (by omega) o.serial (by omega))
  have hbase : ∀ c ∈ ("RS".data ++ natDigits o.year ++ [LEVEL_CODES o.level] ++
      (upperStr o.country).data ++ (upperStr o.issuerCode).data ++
      padStart6 (natDigits o.serial)), c ∈ ISO7064_ALPHABET := by
    intro c hc
    simp only [List.mem_append] at hc
    rcases hc with ((((hc | hc) | hc) | hc) | hc) | hc
    · exact rs_subset_iso c hc
    · exact digit_subset_iso c (hYdig c hc)
    · rw [List.mem_singleton.mp hc]
      exact upper_subset_iso _ (levelCode_upper o.level)
    · exact upper_subset_iso c (hCc c hc)
    · exact upper_subset_iso c (hIc c hc)
    · exact digit_subset_iso c (hPdig c hc)
  obtain ⟨t, hrem, ht1, ht2⟩ :=
    iso7064Remainder_total _ hbase 10 (by omega) (by omega)
  have hcalc : calculateISO7064Check (String.mk ("RS".data ++ natDigits o.year ++
      [LEVEL_CODES o.level] ++ (upperStr o.country).data ++
      (upperStr o.issuerCode).data ++ padStart6 (natDigits o.serial))) =
      some (if (11 - t) % 10 = 10 then 'X' else digitChar ((11 - t) % 10)) := by
    rw [calculateISO7064Check_mk hbase, hrem]
    rfl
  have hallC : (upperStr o.country).data.all isUpperAlpha = true :=
    List.all_eq_true.mpr fun c hc => contains_of_mem (hCc c hc)
  have hallI : (upperStr o.issuerCode).data.all isUpperAlpha = true :=
    List.all_eq_true.mpr fun c hc => contains_of_mem (hIc c hc)
  have hgen : generateCertificateNumber o =
      some (String.mk ("RS".data ++ ['-'] ++ natDigits o.year ++
        ['-', LEVEL_CODES o.level, '-'] ++ (upperStr o.country).data ++ ['-'] ++
        (upperStr o.issuerCode).data ++ ['-'] ++ padStart6 (natDigits o.serial) ++
        ['-', if (11 - t) % 10 = 10 then 'X' else digitChar ((11 - t) % 10)])) := by
    simp only [generateCertificateNumber]
    rw [if_neg (not_not_intro ⟨hy1, hy2⟩),
      if_neg (not_not_intro ⟨hClen2, hallC⟩),
      if_neg (not_not_intro ⟨hIlen3, hallI⟩),
      if_neg (not_not_intro ⟨hs1, hs2⟩), hcalc]
    rfl
  have hckdig : (if (11 - t) % 10 = 10 then 'X'
      else digitChar ((11 - t) % 10)) ∈ DIGIT_CHARS := renderChar_digit ht1 ht2
  have hLfix : ∀ c ∈ ("RS".data ++ ['-'] ++ natDigits o.year ++
      ['-', LEVEL_CODES o.level, '-'] ++ (upperStr o.country).data ++ ['-'] ++
      (upperStr o.issuerCode).data ++ ['-'] ++ padStart6 (natDigits o.serial) ++
      ['-', if (11 - t) % 10 = 10 then 'X' else digitChar ((11 - t) % 10)]),
      upperChar c = c := by
    intro c hc
    simp only [List.mem_append, List.mem_singleton, List.mem_cons,
      List.not_mem_nil, or_false] at hc
    rcases hc with ((((((((hc | hc) | hc) | hc) | hc) | hc) | hc) | hc) | hc) | hc
    · rcases hc with hc | hc
      · rw [hc]; decide
      · rw [hc]; decide
    · rw [hc]; decide
    · exact digit_fixed c (hYdig c hc)
    · rcases hc with hc | hc | hc
      · rw [hc]; decide
      · rw [hc]; exact upper_fixed _ (levelCode_upper o.level)
      · rw [hc]; decide
    · exact upper_fixed c (hCc c hc)
    · rw [hc]; decide
    · exact upper_fixed c (hIc c hc)
    · rw [hc]; decide
    · exact digit_fixed c (hPdig c hc)
    · rcases hc with hc | hc
      · rw [hc]; decide
      · rw [hc]; exact digit_fixed _ hckdig
  have hupperL : (upperStr (String.mk ("RS".data ++ ['-'] ++ natDigits o.year ++
      ['-', LEVEL_CODES o.level, '-'] ++ (upperStr o.country).data ++ ['-'] ++
      (upperStr o.issuerCode).data ++ ['-'] ++ padStart6 (natDigits o.serial) ++
      ['-', if (11 - t) % 10 = 10 then 'X'
        else digitChar ((11 - t) % 10)]))).data =
      ("RS".data ++ ['-'] ++ natDigits o.year ++
      ['-', LEVEL_CODES o.level, '-'] ++ (upperStr o.country).data ++ ['-'] ++
      (upperStr o.issuerCode).data ++ ['-'] ++ padStart6 (natDigits o.serial) ++
      ['-', if (11 - t) % 10 = 10 then 'X' else digitChar ((11 - t) % 10)]) := by
    show (("RS".data ++ ['-'] ++ natDigits o.year ++
      ['-', LEVEL_CODES o.level, '-'] ++ (upperStr o.country).data ++ ['-'] ++
      (upperStr o.issuerCode).data ++ ['-'] ++ padStart6 (natDigits o.serial) ++
      ['-', if (11 - t) % 10 = 10 then 'X'
        else digitChar ((11 - t) % 10)]).map upperChar) = _
    exact map_id_of_mem hLfix
  have hT4 : takeN 4 isDigitCh (natDigits o.year ++
      ('-' :: LEVEL_CODES o.level :: '-' :: ((upperStr o.country).data ++
        ('-' :: ((upperStr o.issuerCode).data ++
          ('-' :: (padStart6 (natDigits o.serial) ++
            ['-', if (11 - t) % 10 = 10 then 'X'
              else digitChar ((11 - t) % 10)]))))))) =
      some (natDigits o.year,
        '-' :: LEVEL_CODES o.level :: '-' :: ((upperStr o.country).data ++
        ('-' :: ((upperStr o.issuerCode).data ++
          ('-' :: (padStart6 (natDigits o.serial) ++
            ['-', if (11 - t) % 10 = 10 then 'X'
              else digitChar ((11 - t) % 10)])))))) :=
    takeN_exact _ _ _ _ hYlen fun c hc => contains_of_mem (hYdig c hc)
  have hT1 : takeN 1 (fun c => c = 'B' || c = 'S' || c = 'G')
      (LEVEL_CODES o.level :: '-' :: ((upperStr o.country).data ++
        ('-' :: ((upperStr o.issuerCode).data ++
          ('-' :: (padStart6 (natDigits o.serial) ++
            ['-', if (11 - t) % 10 = 10 then 'X'
              else digitChar ((11 - t) % 10)])))))) =
      some ([LEVEL_CODES o.level],
        '-' :: ((upperStr o.country).data ++
        ('-' :: ((upperStr o.issuerCode).data ++
          ('-' :: (padStart6 (natDigits o.serial) ++
            ['-', if (11 - t) % 10 = 10 then 'X'
              else digitChar ((11 - t) % 10)])))))) := by
    have h := takeN_exact 1 (fun c => c = 'B' || c = 'S' || c = 'G')
      [LEVEL_CODES o.level]
      ('-' :: ((upperStr o.country).data ++
        ('-' :: ((upperStr o.issuerCode).data ++
          ('-' :: (padStart6 (natDigits o.serial) ++
            ['-', if (11 - t) % 10 = 10 then 'X'
              else digitChar ((11 - t) % 10)]))))))
      rfl (by intro c hc; rw [List.mem_singleton.mp hc]; exact levelCode_class o.level)
    simpa using h
  have hT2 : takeN 2 isUpperAlpha ((upperStr o.country).data ++
      ('-' :: ((upperStr o.issuerCode).data ++
        ('-' :: (padStart6 (natDigits o.serial) ++
          ['-', if (11 - t) % 10 = 10 then 'X'
            else digitChar ((11 - t) % 10)]))))) =
      some ((upperStr o.country).data,
        '-' :: ((upperStr o.issuerCode).data ++
        ('-' :: (padStart6 (natDigits o.serial) ++
          ['-', if (11 - t) % 10 = 10 then 'X'
            else digitChar ((11 - t) % 10)])))) :=
    takeN_exact _ _ _ _ hClen2 fun c hc => contains_of_mem (hCc c hc)
  have hT3 : takeN 3 isUpperAlpha ((upperStr o.issuerCode).data ++
      ('-' :: (padStart6 (natDigits o.serial) ++
        ['-', if (11 - t) % 10 = 10 then 'X'
          else digitChar ((11 - t) % 10)]))) =
      some ((upperStr o.issuerCode).data,
        '-' :: (padStart6 (natDigits o.serial) ++
        ['-', if (11 - t) % 10 = 10 then 'X'
          else digitChar ((11 - t) % 10)])) :=
    takeN_exact _ _ _ _ hIlen3 fun c hc => contains_of_mem (hIc c hc)
  have hT6 : takeN 6 isDigitCh (padStart6 (natDigits o.serial) ++
      ['-', if (11 - t) % 10 = 10 then 'X' else digitChar ((11 - t) % 10)]) =
      some (padStart6 (natDigits o.serial),
        ['-', if (11 - t) % 10 = 10 then 'X' else digitChar ((11 - t) % 10)]) :=
    takeN_exact _ _ _ _ hPlen fun c hc => contains_of_mem (hPdig c hc)
  have hTck : takeN 1 isUpperAlnum
      [if (11 - t) % 10 = 10 then 'X' else digitChar ((11 - t) % 10)] =
      some ([if (11 - t) % 10 = 10 then 'X' else digitChar ((11 - t) % 10)],
        []) := by
    have h := takeN_exact 1 isUpperAlnum
      [if (11 - t) % 10 = 10 then 'X' else digitChar ((11 - t) % 10)]
      [] rfl
      (by
        intro c hc
        rw [List.mem_singleton.mp hc]
        show (isUpperAlpha _ || isDigitCh _) = true
        rw [show isDigitCh (if (11 - t) % 10 = 10 then 'X'
          else digitChar ((11 - t) % 10)) = true from contains_of_mem hckdig]
        rw [Bool.or_true])
    simpa using h
  have hparse : parseCertificateNumber (String.mk ("RS".data ++ ['-'] ++
      natDigits o.year ++ ['-', LEVEL_CODES o.level, '-'] ++
      (upperStr o.country).data ++ ['-'] ++ (upperStr o.issuerCode).data ++
      ['-'] ++ padStart6 (natDigits o.serial) ++
      ['-', if (11 - t) % 10 = 10 then 'X' else digitChar ((11 - t) % 10)])) =
      some { year := digitsToNat (natDigits o.year), level := o.level,
             levelCode := LEVEL_CODES o.level,
             country := String.mk (upperStr o.country).data,
             issuerCode := String.mk (upperStr o.issuerCode).data,
             serial := digitsToNat (padStart6 (natDigits o.serial)),
             checkDigit := if (11 - t) % 10 = 10 then 'X'
               else digitChar ((11 - t) % 10) } := by
    unfold parseCertificateNumber
    rw [hupperL]
    simp only [List.append_assoc, List.cons_append, List.nil_append,
      List.singleton_append]
    simp only [expectChar_cons, hT4, hT1, hT2, hT3, hT6, hTck,
      List.headD_cons, CODE_TO_LEVEL_LEVEL_CODES, if_true]
  have hvalid : validateCertificateNumber (String.mk ("RS".data ++ ['-'] ++
      natDigits o.year ++ ['-', LEVEL_CODES o.level, '-'] ++
      (upperStr o.country).data ++ ['-'] ++ (upperStr o.issuerCode).data ++
      ['-'] ++ padStart6 (natDigits o.serial) ++
      ['-', if (11 - t) % 10 = 10 then 'X'
        else digitChar ((11 - t) % 10)])) = true := by
    unfold validateCertificateNumber
    rw [hparse]
    show verifyISO7064 (String.mk ("RS".data ++
      natDigits (digitsToNat (natDigits o.year)) ++ [LEVEL_CODES o.level] ++
      (upperStr o.country).data ++ (upperStr o.issuerCode).data ++
      padStart6 (natDigits (digitsToNat (padStart6 (natDigits o.serial))))))
      (if (11 - t) % 10 = 10 then 'X' else digitChar ((11 - t) % 10)) = true
    rw [digitsToNat_natDigits o.year,
      show digitsToNat (padStart6 (natDigits o.serial)) = o.serial from by
        rw [digitsToNat_padStart6]; exact digitsToNat_natDigits o.serial]
    unfold verifyISO7064
    rw [hcalc]
    show decide ((if (11 - t) % 10 = 10 then 'X'
      else digitChar ((11 - t) % 10)) =
      upperChar (if (11 - t) % 10 = 10 then 'X'
        else digitChar ((11 - t) % 10))) = true
    rw [iso7064_checkChar_upper_fixed ht1 ht2]
    exact decide_eq_true rfl
  exact ⟨_, hgen, hvalid⟩

theorem validate_generate_roundtrip_witness :
    validateCertificateNumber "RS-2026-G-IN-SWG-000001-8" = true := by
  obtain ⟨s, hgen, hval⟩ := validate_generate_roundtrip
    ⟨2026, .gold, "IN", "SWG", 1⟩ (by decide) (by decide) (by decide) (by decide)
    (by decide) (by decide) (by decide) (by decide)
  have hs : s = "RS-2026-G-IN-SWG-000001-8" := by
    have hcat : (some s : Option String) = some "RS-2026-G-IN-SWG-000001-8" :=
      hgen.symm.trans (by decide)
    exact Option.some.injEq _ _ ▸ hcat
  rw [← hs]
  exact hval

theorem enforce_idempotent_witness :
    enforcePublicAttributesOnly
      (attrsToRecord ⟨"R", "K", .gold, "2026-01-01", "2027-01-01"⟩) =
      .ok ⟨"R", "K", .gold, "2026-01-01", "2027-01-01"⟩ :=
  enforce_idempotent
    [("givenName", .str "R"), ("familyName", .str "K"),
     ("level", .str "gold"), ("validFrom", .str "2026-01-01"),
     ("validUntil", .str "2027-01-01")]
    ⟨"R", "K", .gold, "2026-01-01", "2027-01-01"⟩ rfl

end RSCP
